import Mathlib

/-!
Verification of the Selenium configuration language and keymap dispatch
engine. The definitions below are a shallow embedding of the source files
Framework/Assets/Configurations.js, Framework/Input/Keyboard.js and
Framework/Utilities.js. Strings are modelled as lists of characters,
JavaScript Map objects as association lists with in-place update, and the
exception behaviour of Panic / Error / Warning as an Except monad indexed
by the engine fatality level.
-/

/-- Decidable equality for Except results, needed to evaluate parser
outcomes on concrete inputs. -/
instance {e a : Type} [DecidableEq e] [DecidableEq a] :
    DecidableEq (Except e a) := fun x y =>
  match x, y with
  | .ok u, .ok v =>
      if h : u = v then isTrue (by rw [h])
      else isFalse (fun hh => h (Except.ok.inj hh))
  | .error u, .error v =>
      if h : u = v then isTrue (by rw [h])
      else isFalse (fun hh => h (Except.error.inj hh))
  | .ok _, .error _ => isFalse (fun hh => Except.noConfusion hh)
  | .error _, .ok _ => isFalse (fun hh => Except.noConfusion hh)

namespace Selenium

/-- Character-list strings, the working representation of JS strings. -/
abbrev CStr := List Char

/-- Conversion from Lean string literals to the working representation. -/
def cl (s : String) : CStr := s.toList

/-- Association-list lookup, the model of JS Map.prototype.get. -/
def aGet {V : Type} : List (CStr × V) → CStr → Option V
  | [], _ => none
  | (k0, v0) :: rest, k => if k0 = k then some v0 else aGet rest k

/-- Association-list insertion, the model of JS Map.prototype.set: an
existing key keeps its position and receives the new value, a new key is
appended at the end. -/
def aSet {V : Type} : List (CStr × V) → CStr → V → List (CStr × V)
  | [], k, v => [(k, v)]
  | (k0, v0) :: rest, k, v =>
      if k0 = k then (k, v) :: rest else (k0, v0) :: aSet rest k v

/-- JS String.prototype.split on a single separator character. -/
def splitOnChar (c : Char) : CStr → List CStr
  | [] => [[]]
  | x :: rest =>
      if x = c then [] :: splitOnChar c rest
      else
        match splitOnChar c rest with
        | [] => [[x]]
        | h :: t => (x :: h) :: t

/-- JS String.prototype.indexOf for a single character: the index of the
first occurrence, or -1 when absent. -/
def jsIndexOf (l : CStr) (c : Char) : Int :=
  match l.findIdx? (fun x => x = c) with
  | some i => (i : Int)
  | none => -1

/-- JS String.prototype.substring with both arguments: each argument is
clamped into the interval from 0 to the length, and the two are swapped
when given in decreasing order. -/
def jsSubstring (l : CStr) (a b : Int) : CStr :=
  let n := l.length
  let a2 := min (max a 0).toNat n
  let b2 := min (max b 0).toNat n
  (l.take (max a2 b2)).drop (min a2 b2)

/-- JS String.prototype.substring with one argument: up to the end. -/
def jsSubstringFrom (l : CStr) (a : Int) : CStr :=
  jsSubstring l a (l.length : Int)

/-- Removal of the run of leading space characters on a line, the effect
of the first alternative of the space regex in Utilities.js. -/
def dropLeadSpaces : CStr → CStr
  | [] => []
  | c :: rest => if c = ' ' then dropLeadSpaces rest else c :: rest

/-- Removal of trailing space runs and compression of each internal space
run to a single space, the effect of the second and third alternatives of
the space regex in Utilities.js. Only the space character is affected;
tabs pass through untouched. -/
def squeezeAux : CStr → CStr
  | [] => []
  | c :: rest =>
      if c = ' ' then
        match squeezeAux rest with
        | [] => []
        | d :: t => if d = ' ' then d :: t else ' ' :: d :: t
      else c :: squeezeAux rest

/-- The full per-line effect of replaceAll with the multiline space regex
of Utilities.js: the regex never matches across a newline, so applying it
to the whole text and then splitting on newlines is the same as splitting
first and normalising each line. -/
def squeezeLine (l : CStr) : CStr := squeezeAux (dropLeadSpaces l)

/-- The line filter of ParseConfig: blank lines and lines containing a
comment marker anywhere are dropped. -/
def keepLine (l : CStr) : Bool :=
  (decide (l ≠ [])) && !(l.contains '#') && !(l.contains ';')

/-- The lexing step of ParseConfig (Configurations.js lines 236-240):
whitespace normalisation, split on newlines, and the comment and blank
line filter. -/
def LexText (text : CStr) : List CStr :=
  ((splitOnChar '\n' text).map squeezeLine).filter keepLine

/-- The two configuration kinds of the ConfigType typedef. -/
inductive ConfigType where
  | global
  | keymap
deriving DecidableEq

/-- Errors escaping the parser: Panic, Warning and Error all throw the
raw message string; a JS TypeError caused by indexing undefined is kept
distinct. -/
inductive ConfigError where
  | thrown (msg : CStr)
  | typeErr
deriving DecidableEq

/-- The typed value stored in an entry: passthrough string, integer-coded
enum, keyword list, a resolved callback reference with captured argument
list, or the null returned for an unresolvable keymap callback. -/
inductive ConfigValue where
  | str (s : CStr)
  | num (n : Nat)
  | list (l : List CStr)
  | cb (name : CStr) (args : Option (List CStr))
  | nul
deriving DecidableEq

/-- An entry: typed value paired with the sub-key map of raw strings. -/
abbrev CEntry := ConfigValue × List (CStr × CStr)

/-- A section: ordered map from key name to entry. -/
abbrev CSection := List (CStr × CEntry)

/-- A configuration tree: ordered map from section name to section. -/
abbrev CTree := List (CStr × CSection)

instance : DecidableEq CSection := fun a b => List.hasDecEq a b

instance : DecidableEq CTree := fun a b => List.hasDecEq a b

/-- The three callback registries of Keyboard.js, one per input phase,
each modelled by the list of registered names (the callback functions
themselves are opaque host values identified by their name). -/
structure Registries where
  press : List CStr
  hold : List CStr
  release : List CStr

/-- The empty registry state. -/
def regEmpty : Registries := ⟨[], [], []⟩

/-- Utilities.Panic (part_003 lines 192-205): always throws its message.
The fatality level is irrelevant. -/
def SelPanic (msg : CStr) : Except ConfigError Unit :=
  .error (.thrown msg)

/-- Utilities.Warning: throws its message exactly when the fatality level
is 0. -/
def SelWarning (fat : Nat) (msg : CStr) : Except ConfigError Unit :=
  if fat = 0 then .error (.thrown msg) else .ok ()

/-- Utilities.Error: throws its message exactly when the fatality level is
below 2. -/
def SelError (fat : Nat) (msg : CStr) : Except ConfigError Unit :=
  if fat < 2 then .error (.thrown msg) else .ok ()

/-- CheckSectionName (Configurations.js lines 59-71). -/
def CheckSectionName (type : ConfigType) (name : CStr) : Bool :=
  match type with
  | .global => name = cl "Selenium" || name = cl "Game"
  | .keymap => name = cl "Press" || name = cl "Hold" || name = cl "Release"

/-- CheckKeyName (Configurations.js lines 85-108). Any key name at all is
accepted under the keymap kind. -/
def CheckKeyName (type : ConfigType) (sctn name : CStr) : Bool :=
  match type with
  | .global =>
      if sctn = cl "Selenium" then
        name = cl "mode" || name = cl "fatality_level"
      else
        name = cl "title" || name = cl "short" || name = cl "author" ||
        name = cl "description" || name = cl "keywords" ||
        name = cl "license"
  | .keymap => true

/-- CheckSubkeyName (Configurations.js lines 123-141). -/
def CheckSubkeyName (type : ConfigType) (sctn name subname : CStr) : Bool :=
  match type with
  | .global =>
      if sctn = cl "Selenium" then false
      else if subname = cl "short" then name = cl "title"
      else false
  | .keymap => subname = cl "tolerant"

/-- The panic message used throughout ParseConfig and ParseValue. -/
def malMsg : CStr := cl "Malformed game config."

/-- The shared tail of the global branch of ParseValue: the keywords key
decodes to a comma-split list with each element space-normalised by the
same space regex; every other key passes through as a plain string. -/
def parseValueGlobalTail (key value : CStr) : ConfigValue :=
  if key = cl "keywords" then
    .list ((splitOnChar ',' value).map squeezeLine)
  else .str value

/-- Registry lookup by section name, the requested-function selection of
ParseValue (Configurations.js lines 203-214): a section name outside the
three phases leaves the requested function undefined. -/
def resolveNm (reg : Registries) (sctn nm : CStr) : Bool :=
  if sctn = cl "Press" then reg.press.contains nm
  else if sctn = cl "Hold" then reg.hold.contains nm
  else if sctn = cl "Release" then reg.release.contains nm
  else false

/-- The callback-name extraction of the keymap branch of ParseValue: the
substring before the first opening parenthesis, or the whole value when
there is none. -/
def kmFunctionName (value : CStr) : CStr :=
  let argStart := jsIndexOf value '('
  if argStart = -1 then value else jsSubstring value 0 argStart

/-- The argument-list extraction of the keymap branch of ParseValue: the
comma-split substring between the first opening parenthesis and the first
closing parenthesis, or undefined when no opening parenthesis exists. -/
def kmFunctionArgs (value : CStr) : Option (List CStr) :=
  let argStart := jsIndexOf value '('
  if argStart = -1 then none
  else some (splitOnChar ','
    (jsSubstring value (argStart + 1) (jsIndexOf value ')')))

/-- The global branch of ParseValue (Configurations.js lines 160-189):
decodes the two Selenium enums, panicking only on an unparseable
fatality-level value, while an unparseable mode value falls through to
the string tail. -/
def parseValueGlobal (sctn key value : CStr) : Except ConfigError ConfigValue :=
  if sctn = cl "Selenium" then
    if key = cl "mode" then
      if value = cl "Debug" then .ok (.num 0)
      else if value = cl "Release" then .ok (.num 1)
      else .ok (parseValueGlobalTail key value)
    else
      if value = cl "All" then .ok (.num 0)
      else if value = cl "Errors" then .ok (.num 1)
      else if value = cl "Panics" then .ok (.num 2)
      else .error (.thrown malMsg)
  else .ok (parseValueGlobalTail key value)

/-- The keymap branch of ParseValue (Configurations.js lines 190-218):
decodes a call-like value and resolves it against the registry of the
current section, yielding null when the lookup fails. -/
def parseValueKeymap (reg : Registries) (sctn value : CStr) : ConfigValue :=
  if resolveNm reg sctn (kmFunctionName value) then
    .cb (kmFunctionName value) (kmFunctionArgs value)
  else .nul

/-- ParseValue (Configurations.js lines 156-219), dispatching on kind. -/
def ParseValue (reg : Registries) (type : ConfigType) (sctn key value : CStr) :
    Except ConfigError ConfigValue :=
  match type with
  | .global => parseValueGlobal sctn key value
  | .keymap => .ok (parseValueKeymap reg sctn value)

/-- The mutable loop state of ParseConfig: the accumulated tree, the
current section name, the most recently assigned key variable, and the
current section map. -/
structure PState where
  tree : CTree
  secName : CStr
  key : CStr
  sec : CSection
deriving DecidableEq

/-- The initial loop state of ParseConfig. -/
def initState : PState := ⟨[], [], [], []⟩

/-- The section flush of ParseConfig: the current section is pushed into
the tree unless no section has been opened yet. This happens both when a
new section header is met and after the final line. -/
def flushTree (st : PState) : CTree :=
  if st.secName = [] then st.tree else aSet st.tree st.secName st.sec

/-- The name part of a section header line: the substring between index 1
and the index before the closing bracket, exactly as ParseConfig slices
it. -/
def lineSecName (line : CStr) : CStr :=
  jsSubstring line 1 ((line.length : Int) - 1)

/-- The key part of a key line: the substring before the first equals
sign. -/
def lineKey (line : CStr) : CStr := jsSubstring line 0 (jsIndexOf line '=')

/-- The value part of a key or sub-key line: the substring after the
first equals sign. -/
def lineVal (line : CStr) : CStr :=
  jsSubstringFrom line (jsIndexOf line '=' + 1)

/-- The sub-key part of a sub-key line: between the leading tab and the
first equals sign. -/
def lineSub (line : CStr) : CStr := jsSubstring line 1 (jsIndexOf line '=')

/-- One iteration of the ParseConfig line loop (Configurations.js lines
246-299), covering the section-header, key-line and sub-key-line
branches, including the flush-before-validation order, the skip of keymap
entries whose callback failed to resolve, and the TypeError raised when a
sub-key line attaches to a key absent from the current section. -/
def stepLine (reg : Registries) (fat : Nat) (type : ConfigType)
    (st : PState) (line : CStr) : Except ConfigError PState :=
  if line.head? = some '[' then
    if CheckSectionName type (lineSecName line) then
      .ok ⟨flushTree st, lineSecName line, st.key, []⟩
    else
      match type with
      | .global => .error (.thrown malMsg)
      | .keymap =>
          match SelWarning fat (cl "Malformed config section.") with
          | .error e => .error e
          | .ok () => .ok ⟨flushTree st, st.secName, st.key, st.sec⟩
  else if line.head? = some '\t' then
    if CheckSubkeyName type st.secName st.key (lineSub line) then
      match aGet st.sec st.key with
      | none => .error .typeErr
      | some (v, sub) =>
          .ok ⟨st.tree, st.secName, st.key,
               aSet st.sec st.key (v, aSet sub (lineSub line) (lineVal line))⟩
    else .error (.thrown malMsg)
  else
    if CheckKeyName type st.secName (lineKey line) then
      match ParseValue reg type st.secName (lineKey line) (lineVal line) with
      | .error e => .error e
      | .ok v =>
          if type = .keymap ∧ v = .nul then
            match SelError fat
                (cl "Failed to find requested function." ++ lineVal line) with
            | .error e => .error e
            | .ok () => .ok ⟨st.tree, st.secName, lineKey line, st.sec⟩
          else
            .ok ⟨st.tree, st.secName, lineKey line,
                 aSet st.sec (lineKey line) (v, [])⟩
    else .error (.thrown malMsg)

/-- The full line loop of ParseConfig. -/
def runLines (reg : Registries) (fat : Nat) (type : ConfigType) :
    PState → List CStr → Except ConfigError PState
  | st, [] => .ok st
  | st, l :: rest =>
      match stepLine reg fat type st l with
      | .error e => .error e
      | .ok st2 => runLines reg fat type st2 rest

/-- The required-key post-pass of ParseConfig (Configurations.js lines
304-316), fatal for the global kind when either section or any of the
four required keys is missing. -/
def postCheck (type : ConfigType) (tree : CTree) : Except ConfigError Unit :=
  match type with
  | .keymap => .ok ()
  | .global =>
      match aGet tree (cl "Selenium"), aGet tree (cl "Game") with
      | some es, some gs =>
          if (aGet es (cl "mode")).isNone ∨ (aGet gs (cl "title")).isNone ∨
             (aGet gs (cl "author")).isNone ∨ (aGet gs (cl "license")).isNone
          then .error (.thrown malMsg)
          else .ok ()
      | _, _ => .error (.thrown malMsg)

/-- ParseConfig (Configurations.js lines 230-319): lex, run the line
loop, flush the trailing section, and run the post-pass. -/
def ParseConfig (reg : Registries) (fat : Nat) (type : ConfigType)
    (contents : CStr) : Except ConfigError CTree :=
  match runLines reg fat type initState (LexText contents) with
  | .error e => .error e
  | .ok st =>
      match postCheck type (flushTree st) with
      | .error e => .error e
      | .ok () => .ok (flushTree st)

/-- The Configuration class: a kind tag plus the parsed body. -/
structure Configuration where
  typ : ConfigType
  contents : CTree
deriving DecidableEq

/-- Selenium_Assets_Configurations.Load (Configurations.js lines
382-389), with the asset-retrieval collaborator abstracted into the
optional file contents: a missing file yields the explicit null
indicator, otherwise the Configuration constructor parses the text and
any exception it raises propagates to the caller. -/
def LoadConfig (reg : Registries) (fat : Nat) (type : ConfigType)
    (file : Option CStr) : Except ConfigError (Option Configuration) :=
  match file with
  | none => .ok none
  | some text =>
      match ParseConfig reg fat type text with
      | .error e => .error e
      | .ok tree => .ok (some ⟨type, tree⟩)

/-- Selenium_Input_Keyboard.LoadMap (Keyboard.js lines 126-131) as a
state transformer on the live keymap table: the pair returned is the
escaping exception, if any, and the table that is live afterwards. The
assignment to the live table is the single final statement of LoadMap, so
a failed or exceptional load leaves the old table in place. -/
def LoadMapRun (reg : Registries) (fat : Nat) (old : CTree)
    (file : Option CStr) : Option ConfigError × CTree :=
  match LoadConfig reg fat .keymap file with
  | .error e => (some e, old)
  | .ok none => (none, old)
  | .ok (some cfg) => (none, cfg.contents)

/-- A physical keyboard event, the fields of KeyboardEvent consulted by
ConstructKey and HandleDown: code, the four modifier flags, and the
repeat flag. -/
structure KeyEv where
  code : CStr
  shift : Bool
  alt : Bool
  ctrl : Bool
  meta : Bool
  rep : Bool
deriving DecidableEq

/-- JS truthiness of an optional raw sub-key string, as tested by
callback.get on the tolerant sub-key: undefined and the empty string are
falsy, every other string is truthy. -/
def jsTruthy : Option CStr → Bool
  | none => false
  | some s => decide (s ≠ [])

/-- The observable outcome of one HandleDown call: no invocation, an
invocation of the entry value at index 0 of the binding (the bound
callback), or the call of index 1 of the binding — the sub-key map, not a
function, which raises a TypeError at runtime. -/
inductive DispatchOutcome where
  | noop
  | invoked (v : ConfigValue)
  | badCall (v : ConfigValue) (sub : List (CStr × CStr))
deriving DecidableEq

/-- HandleDown (Keyboard.js lines 37-64): repeat events consult the Hold
section, first presses the Press section; an unbound key or missing
section is a no-op; a truthy tolerant sub-key invokes the bound callback
unconditionally; otherwise each live modifier flag not declared as a
sub-key voids the match, and on a full match the code calls
the element at index 1 of the binding — the sub-key map — rather than the
bound callback at index 0. -/
def HandleDown (map : CTree) (ev : KeyEv) : DispatchOutcome :=
  let callbacks := if ev.rep then aGet map (cl "Hold") else aGet map (cl "Press")
  match callbacks with
  | none => .noop
  | some cbs =>
      match aGet cbs ev.code with
      | none => .noop
      | some (v, sub) =>
          if jsTruthy (aGet sub (cl "tolerant")) then .invoked v
          else if (aGet sub (cl "shift")).isNone ∧ ev.shift then .noop
          else if (aGet sub (cl "alt")).isNone ∧ ev.alt then .noop
          else if (aGet sub (cl "control")).isNone ∧ ev.ctrl then .noop
          else if (aGet sub (cl "meta")).isNone ∧ ev.meta then .noop
          else .badCall v sub

/-! Helper lemmas about the association-list model. -/

theorem aGet_aSet {V : Type} (m : List (CStr × V)) (k k2 : CStr) (v : V) :
    aGet (aSet m k v) k2 = if k = k2 then some v else aGet m k2 := by
  induction m with
  | nil =>
      by_cases h : k = k2 <;> simp [aSet, aGet, h]
  | cons p rest ih =>
      obtain ⟨k0, v0⟩ := p
      by_cases h0 : k0 = k
      · subst h0
        by_cases h : k0 = k2 <;> simp [aSet, aGet, h]
      · by_cases h : k0 = k2
        · subst h
          have hk : ¬ k = k0 := fun hh => h0 hh.symm
          simp [aSet, aGet, h0, hk]
        · simp [aSet, aGet, h0, h, ih]

theorem aGet_aSet_isSome {V : Type} (m : List (CStr × V)) (k k2 : CStr)
    (v : V) (h : (aGet m k2).isSome) : (aGet (aSet m k v) k2).isSome := by
  rw [aGet_aSet]
  by_cases hk : k = k2 <;> simp [hk, h]

/-! Concrete fixtures used to settle the claims. -/

/-- A press-table binding for KeyW with no sub-keys, as compiled from a
keymap whose press registry resolves the name cb. -/
def c1Tree : CTree := [(cl "Press", [(cl "KeyW", (.cb (cl "cb") none, []))])]

/-- The same binding with a truthy tolerant sub-key. -/
def c1TolTree : CTree :=
  [(cl "Press", [(cl "KeyW",
    (.cb (cl "cb") none, [(cl "tolerant", cl "true")]))])]

/-- A key-down event for KeyW with no modifiers and no repeat. -/
def c1Ev : KeyEv := ⟨cl "KeyW", false, false, false, false, false⟩

/-- The same event with shift asserted. -/
def c1EvShift : KeyEv := ⟨cl "KeyW", true, false, false, false, false⟩

/-- The same event with control asserted. -/
def c1EvCtrl : KeyEv := ⟨cl "KeyW", false, false, true, false, false⟩

/-- Claim C1 (code bug, evaluation at the failing input): for a
non-tolerant press binding of KeyW with an empty sub-key map, a key-down
event with all four modifiers unasserted reaches the full-match branch,
where HandleDown calls element 1 of the binding — the sub-key map, which
raises a TypeError — instead of invoking the bound callback at element 0;
the event with shift asserted invokes nothing, and a tolerant binding
invokes the bound callback regardless of modifiers, as the claim says. -/
theorem C1_handleDown_full_match_calls_submap :
    HandleDown c1Tree c1Ev = .badCall (.cb (cl "cb") none) [] ∧
    HandleDown c1Tree c1EvShift = .noop ∧
    HandleDown c1TolTree c1Ev = .invoked (.cb (cl "cb") none) ∧
    HandleDown c1TolTree c1EvCtrl = .invoked (.cb (cl "cb") none) := by
  refine ⟨rfl, rfl, rfl, rfl⟩

/-- Claim C6: a key-down event with the repeat flag consults only the
Hold section of the live table — two tables agreeing on Hold dispatch
identically, whatever their Press sections hold — and a non-repeat
key-down consults only the Press section. -/
theorem C6_repeat_consults_hold_only :
    ∀ (map map2 : CTree) (ev : KeyEv),
      (ev.rep = true → aGet map (cl "Hold") = aGet map2 (cl "Hold") →
        HandleDown map ev = HandleDown map2 ev) ∧
      (ev.rep = false → aGet map (cl "Press") = aGet map2 (cl "Press") →
        HandleDown map ev = HandleDown map2 ev) := by
  intro map map2 ev
  constructor <;> intro hr h <;> simp [HandleDown, hr, h]

/-- Witness for C6: a table whose Press section binds KeyW and whose Hold
section is empty dispatches a repeat event exactly like a table with no
Press section at all. -/
theorem C6_witness :
    HandleDown c1Tree ⟨cl "KeyW", false, false, false, false, true⟩ =
      HandleDown [] ⟨cl "KeyW", false, false, false, false, true⟩ :=
  (C6_repeat_consults_hold_only c1Tree []
    ⟨cl "KeyW", false, false, false, false, true⟩).1 rfl (by decide)

/-- Claim C2 counterexample: a global configuration whose only line is an
illegal section header makes ParseConfig panic, and the panic escapes the
public load entry point as an exception instead of the null failure
indicator, refuting the claim that parse-time errors never escape. -/
theorem C2_counterexample :
    LoadConfig regEmpty 2 .global (some (cl "[Bogus]")) =
      .error (.thrown malMsg) := by decide

/-- Claim C2 (amended): a failed file retrieval yields the explicit null
indicator, a non-exceptional load yields a fully parsed configuration of
the requested kind, but parse-time errors propagate out of the load entry
point as exceptions rather than being converted to null. -/
theorem C2_amended_load_propagation :
    ∀ (reg : Registries) (fat : Nat) (type : ConfigType),
      LoadConfig reg fat type none = .ok none ∧
      (∀ text cfg, LoadConfig reg fat type (some text) = .ok (some cfg) →
        cfg.typ = type ∧ ParseConfig reg fat type text = .ok cfg.contents) ∧
      (∀ text e, ParseConfig reg fat type text = .error e →
        LoadConfig reg fat type (some text) = .error e) := by
  intro reg fat type
  refine ⟨rfl, ?_, ?_⟩
  · intro text cfg h
    cases hp : ParseConfig reg fat type text with
    | error e => simp [LoadConfig, hp] at h
    | ok tree =>
        simp [LoadConfig, hp] at h
        rw [← h]
        exact ⟨rfl, rfl⟩
  · intro text e h
    simp [LoadConfig, h]

/-- Witness for C2 (amended): at a concrete malformed global input the
parse error is propagated unchanged by the load entry point. -/
theorem C2_amended_witness :
    LoadConfig regEmpty 2 .global (some (cl "[Nope]")) =
      .error (.thrown malMsg) :=
  (C2_amended_load_propagation regEmpty 2 .global).2.2 (cl "[Nope]")
    (.thrown malMsg) (by decide)

/-- The input of the C5 counterexample: a global configuration whose mode
value is outside the Debug and Release enum. -/
def c5Input : CStr := cl
  "[Selenium]\nmode=Banana\nfatality_level=Panics\n[Game]\ntitle=T\nauthor=A\nlicense=L"

/-- The tree the C5 counterexample input parses to: the unparseable mode
value survives as a plain string. -/
def c5Tree : CTree :=
  [(cl "Selenium",
    [(cl "mode", (.str (cl "Banana"), [])),
     (cl "fatality_level", (.num 2, []))]),
   (cl "Game",
    [(cl "title", (.str (cl "T"), [])),
     (cl "author", (.str (cl "A"), [])),
     (cl "license", (.str (cl "L"), []))])]

/-- Claim C5 counterexample: a mode value outside the Debug and Release
enum is not fatal — the load completes and the resulting tree contains
the unparseable value as a raw string, refuting the claim that any
unparseable enum value aborts an application-metadata load. -/
theorem C5_counterexample :
    ParseConfig regEmpty 2 .global c5Input = .ok c5Tree ∧
    aGet c5Tree (cl "Selenium") =
      some [(cl "mode", (.str (cl "Banana"), [])),
            (cl "fatality_level", (.num 2, []))] := by
  constructor <;> decide

/-- Claim C5 (amended): an unparseable fatality-level value is fatal to
the load, but an unparseable mode value is not checked at all — it passes
through the value interpreter as a plain string. -/
theorem C5_amended_enum_fatality :
    ∀ (v : CStr),
      (v ≠ cl "All" → v ≠ cl "Errors" → v ≠ cl "Panics" →
        parseValueGlobal (cl "Selenium") (cl "fatality_level") v =
          .error (.thrown malMsg)) ∧
      (v ≠ cl "Debug" → v ≠ cl "Release" →
        parseValueGlobal (cl "Selenium") (cl "mode") v = .ok (.str v)) := by
  intro v
  constructor
  · intro h1 h2 h3
    unfold parseValueGlobal
    rw [if_pos rfl, if_neg (by decide), if_neg h1, if_neg h2, if_neg h3]
  · intro h1 h2
    unfold parseValueGlobal
    rw [if_pos rfl, if_pos rfl, if_neg h1, if_neg h2]
    unfold parseValueGlobalTail
    rw [if_neg (by decide)]

/-- Witness for C5 (amended), at the concrete unparseable values Bad and
Banana. -/
theorem C5_amended_witness :
    parseValueGlobal (cl "Selenium") (cl "fatality_level") (cl "Bad") =
      .error (.thrown malMsg) ∧
    parseValueGlobal (cl "Selenium") (cl "mode") (cl "Banana") =
      .ok (.str (cl "Banana")) :=
  ⟨((C5_amended_enum_fatality (cl "Bad")).1 (by decide) (by decide)
      (by decide)),
   ((C5_amended_enum_fatality (cl "Banana")).2 (by decide) (by decide))⟩

/-- Claim C8: loading a keymap replaces the live dispatch table only by a
single assignment after the new table is completely built: a missing file
leaves the old table live, an exceptional load leaves the old table live,
and in every case the table live after LoadMap is either the old table or
the completely parsed new one — never a partial structure. -/
theorem C8_atomic_swap :
    ∀ (reg : Registries) (fat : Nat) (old : CTree) (file : Option CStr),
      (file = none → LoadMapRun reg fat old file = (none, old)) ∧
      (∀ e, LoadConfig reg fat .keymap file = .error e →
        LoadMapRun reg fat old file = (some e, old)) ∧
      ((LoadMapRun reg fat old file).2 = old ∨
        ∃ text tree, file = some text ∧
          ParseConfig reg fat .keymap text = .ok tree ∧
          (LoadMapRun reg fat old file).2 = tree) := by
  intro reg fat old file
  refine ⟨?_, ?_, ?_⟩
  · rintro rfl; rfl
  · intro e h
    unfold LoadMapRun
    rw [h]
  · cases file with
    | none => exact Or.inl rfl
    | some text =>
        cases hp : ParseConfig reg fat .keymap text with
        | error e =>
            left
            simp [LoadMapRun, LoadConfig, hp]
        | ok tree =>
            right
            exact ⟨text, tree, rfl, hp, by simp [LoadMapRun, LoadConfig, hp]⟩

/-- Witness for C8: with no file found, the old table stays live. -/
theorem C8_witness :
    LoadMapRun regEmpty 2 c1Tree none = (none, c1Tree) :=
  (C8_atomic_swap regEmpty 2 c1Tree none).1 rfl

/-- Structural equality of entries as the idempotence claim states it:
equal decoded values and equal sub-key maps. -/
def entryEquivB (e f : CEntry) : Bool :=
  decide (e.1 = f.1) && decide (e.2 = f.2)

/-- Structural equality of sections: the same keys in the same order with
structurally equal entries. -/
def secEquivB : CSection → CSection → Bool
  | [], [] => true
  | (k, e) :: r, (k2, f) :: r2 =>
      decide (k = k2) && entryEquivB e f && secEquivB r r2
  | _, _ => false

/-- Structural equality of trees: the same section names in the same
order with structurally equal sections. -/
def treeEquivB : CTree → CTree → Bool
  | [], [] => true
  | (n, s) :: r, (n2, s2) :: r2 =>
      decide (n = n2) && secEquivB s s2 && treeEquivB r r2
  | _, _ => false

theorem secEquivB_refl : ∀ s : CSection, secEquivB s s = true := by
  intro s
  induction s with
  | nil => rfl
  | cons p r ih =>
      obtain ⟨k, e⟩ := p
      simp [secEquivB, entryEquivB, ih]

theorem treeEquivB_refl : ∀ t : CTree, treeEquivB t t = true := by
  intro t
  induction t with
  | nil => rfl
  | cons p r ih =>
      obtain ⟨n, s⟩ := p
      simp [treeEquivB, secEquivB_refl, ih]

/-- Claim C9: parsing identical input twice against the same registry
state and fatality level yields structurally equal trees: same section
names in the same order, same keys per section in the same order, and
equal decoded values and sub-key maps. The parser reads the registries
and the fatality level but mutates neither, so both runs are the same
pure function of the input. -/
theorem C9_idempotent_parse :
    ∀ (reg : Registries) (fat : Nat) (type : ConfigType) (text : CStr)
      (tree tree2 : CTree),
      ParseConfig reg fat type text = .ok tree →
      ParseConfig reg fat type text = .ok tree2 →
      treeEquivB tree tree2 = true := by
  intro reg fat type text tree tree2 h1 h2
  rw [h1] at h2
  rw [Except.ok.inj h2]
  exact treeEquivB_refl tree2

/-- A line whose first character is not a space. -/
def noLead (l : CStr) : Bool := decide (l.head? ≠ some ' ')

/-- A line whose last character is not a space. -/
def noTrail : CStr → Bool
  | [] => true
  | [c] => decide (c ≠ ' ')
  | _ :: c :: rest => noTrail (c :: rest)

/-- A line containing no two adjacent spaces. -/
def noDub : CStr → Bool
  | c :: d :: rest =>
      !(decide (c = ' ') && decide (d = ' ')) && noDub (d :: rest)
  | _ => true

/-- The space-free content of a line. -/
def nonSp (l : CStr) : CStr := l.filter (fun c => decide (c ≠ ' '))

theorem dropLeadSpaces_head : ∀ l : CStr, dropLeadSpaces l = [] ∨
    ∃ c rest, dropLeadSpaces l = c :: rest ∧ ¬ c = ' ' := by
  intro l
  induction l with
  | nil => exact Or.inl rfl
  | cons c rest ih =>
      by_cases h : c = ' '
      · simpa [dropLeadSpaces, h] using ih
      · exact Or.inr ⟨c, rest, by simp [dropLeadSpaces, h], h⟩

theorem squeezeAux_cons_ne (c : Char) (l : CStr) (h : ¬ c = ' ') :
    squeezeAux (c :: l) = c :: squeezeAux l := by
  simp [squeezeAux, h]

theorem squeezeAux_cons_sp (rest : CStr) :
    squeezeAux (' ' :: rest) =
      match squeezeAux rest with
      | [] => []
      | d :: t => if d = ' ' then d :: t else ' ' :: d :: t := by
  simp [squeezeAux]

theorem squeezeAux_sp_nil (rest : CStr) (hs : squeezeAux rest = []) :
    squeezeAux (' ' :: rest) = [] := by
  rw [squeezeAux_cons_sp, hs]

theorem squeezeAux_sp_cons_sp (rest : CStr) (d : Char) (t : CStr)
    (hs : squeezeAux rest = d :: t) (hd : d = ' ') :
    squeezeAux (' ' :: rest) = d :: t := by
  rw [squeezeAux_cons_sp, hs]
  exact if_pos hd

theorem squeezeAux_sp_cons_ne (rest : CStr) (d : Char) (t : CStr)
    (hs : squeezeAux rest = d :: t) (hd : ¬ d = ' ') :
    squeezeAux (' ' :: rest) = ' ' :: d :: t := by
  rw [squeezeAux_cons_sp, hs]
  exact if_neg hd

theorem noTrail_cons (x : Char) (l : CStr) (h : l ≠ []) :
    noTrail (x :: l) = noTrail l := by
  cases l with
  | nil => exact absurd rfl h
  | cons y t => rfl

theorem squeezeAux_noTrail : ∀ l : CStr, noTrail (squeezeAux l) = true := by
  intro l
  induction l with
  | nil => rfl
  | cons c rest ih =>
      by_cases h : c = ' '
      · subst h
        cases hs : squeezeAux rest with
        | nil => rw [squeezeAux_sp_nil rest hs]; rfl
        | cons d t =>
            rw [hs] at ih
            by_cases hd : d = ' '
            · rw [squeezeAux_sp_cons_sp rest d t hs hd]; exact ih
            · rw [squeezeAux_sp_cons_ne rest d t hs hd,
                  noTrail_cons ' ' (d :: t) (by simp)]
              exact ih
      · rw [squeezeAux_cons_ne c rest h]
        cases hs : squeezeAux rest with
        | nil => simp [noTrail, h]
        | cons d t =>
            rw [hs] at ih
            rw [noTrail_cons c (d :: t) (by simp)]
            exact ih

theorem noDub_cons_ne (c : Char) (l : CStr) (h : ¬ c = ' ') :
    noDub (c :: l) = noDub l := by
  cases l with
  | nil => rfl
  | cons d t => simp [noDub, h]

theorem squeezeAux_noDub : ∀ l : CStr, noDub (squeezeAux l) = true := by
  intro l
  induction l with
  | nil => rfl
  | cons c rest ih =>
      by_cases h : c = ' '
      · subst h
        cases hs : squeezeAux rest with
        | nil => rw [squeezeAux_sp_nil rest hs]; rfl
        | cons d t =>
            rw [hs] at ih
            by_cases hd : d = ' '
            · rw [squeezeAux_sp_cons_sp rest d t hs hd]; exact ih
            · rw [squeezeAux_sp_cons_ne rest d t hs hd]
              have h2 : noDub (' ' :: d :: t) = noDub (d :: t) := by
                simp [noDub, hd]
              rw [h2]; exact ih
      · rw [squeezeAux_cons_ne c rest h, noDub_cons_ne c _ h]
        exact ih

theorem nonSp_cons_sp (l : CStr) : nonSp (' ' :: l) = nonSp l := by
  simp [nonSp]

theorem nonSp_cons_ne (c : Char) (l : CStr) (h : ¬ c = ' ') :
    nonSp (c :: l) = c :: nonSp l := by
  simp [nonSp, h]

theorem squeezeAux_nonSp : ∀ l : CStr, nonSp (squeezeAux l) = nonSp l := by
  intro l
  induction l with
  | nil => rfl
  | cons c rest ih =>
      by_cases h : c = ' '
      · subst h
        rw [nonSp_cons_sp rest]
        cases hs : squeezeAux rest with
        | nil => rw [squeezeAux_sp_nil rest hs, ← ih, hs]
        | cons d t =>
            rw [hs] at ih
            by_cases hd : d = ' '
            · rw [squeezeAux_sp_cons_sp rest d t hs hd]; exact ih
            · rw [squeezeAux_sp_cons_ne rest d t hs hd,
                  nonSp_cons_sp (d :: t)]
              exact ih
      · rw [squeezeAux_cons_ne c rest h, nonSp_cons_ne c _ h,
            nonSp_cons_ne c rest h, ih]

theorem dropLeadSpaces_nonSp : ∀ l : CStr,
    nonSp (dropLeadSpaces l) = nonSp l := by
  intro l
  induction l with
  | nil => rfl
  | cons c rest ih =>
      by_cases h : c = ' '
      · subst h
        simp only [dropLeadSpaces, if_pos rfl]
        rw [nonSp_cons_sp rest]; exact ih
      · simp only [dropLeadSpaces, if_neg h]

theorem squeezeLine_noLead (l : CStr) : noLead (squeezeLine l) = true := by
  unfold squeezeLine
  rcases dropLeadSpaces_head l with h | ⟨c, rest, heq, hc⟩
  · rw [h]; rfl
  · rw [heq, squeezeAux_cons_ne c rest hc]
    simp [noLead, hc]

theorem squeezeLine_noTrail (l : CStr) : noTrail (squeezeLine l) = true :=
  squeezeAux_noTrail (dropLeadSpaces l)

theorem squeezeLine_noDub (l : CStr) : noDub (squeezeLine l) = true :=
  squeezeAux_noDub (dropLeadSpaces l)

theorem squeezeLine_nonSp (l : CStr) : nonSp (squeezeLine l) = nonSp l := by
  unfold squeezeLine
  rw [squeezeAux_nonSp, dropLeadSpaces_nonSp]

theorem squeezeLine_tab (l : CStr) (h : l.head? = some '\t') :
    (squeezeLine l).head? = some '\t' := by
  cases l with
  | nil => simp at h
  | cons c rest =>
      have hc : c = '\t' := by simpa using h
      subst hc
      unfold squeezeLine
      have h1 : dropLeadSpaces ('\t' :: rest) = '\t' :: rest := by
        simp only [dropLeadSpaces, if_neg (by decide : ¬ ('\t' = ' '))]
      rw [h1, squeezeAux_cons_ne _ _ (by decide)]
      rfl

/-- Claim C7: lexing produces an ordered subsequence of the normalised
source lines; every produced line is non-blank, contains no comment
marker, has no leading or trailing space and no internal run of two or
more spaces; normalisation only deletes space characters, so every other
character — a leading tab in particular — survives it; and every
normalised source line that is non-blank and marker-free is kept. -/
theorem C7_lexer_contract :
    ∀ text : CStr,
      (LexText text).Sublist ((splitOnChar '\n' text).map squeezeLine) ∧
      (∀ l, l ∈ LexText text →
        l ≠ [] ∧ l.contains '#' = false ∧ l.contains ';' = false ∧
        noLead l = true ∧ noTrail l = true ∧ noDub l = true) ∧
      (∀ raw, raw ∈ splitOnChar '\n' text →
        (keepLine (squeezeLine raw) = true → squeezeLine raw ∈ LexText text) ∧
        nonSp (squeezeLine raw) = nonSp raw ∧
        (raw.head? = some '\t' →
          (squeezeLine raw).head? = some '\t')) := by
  intro text
  refine ⟨List.filter_sublist _, ?_, ?_⟩
  · intro l hl
    have hmem := List.mem_filter.mp hl
    obtain ⟨hin, hkeep⟩ := hmem
    obtain ⟨raw, hraw, hetxt⟩ := List.mem_map.mp hin
    have hk := hkeep
    unfold keepLine at hk
    have h1 : l ≠ [] := by
      intro hnil
      rw [hnil] at hk
      simp at hk
    have h2 : l.contains '#' = false := by
      rcases Bool.and_eq_true_iff.mp hk with ⟨ha, hb⟩
      rcases Bool.and_eq_true_iff.mp ha with ⟨_, hc⟩
      simpa using hc
    have h3 : l.contains ';' = false := by
      rcases Bool.and_eq_true_iff.mp hk with ⟨_, hb⟩
      simpa using hb
    rw [← hetxt]
    exact ⟨by rw [hetxt]; exact h1, by rw [hetxt]; exact h2,
           by rw [hetxt]; exact h3, squeezeLine_noLead raw,
           squeezeLine_noTrail raw, squeezeLine_noDub raw⟩
  · intro raw hraw
    refine ⟨?_, squeezeLine_nonSp raw, fun ht => squeezeLine_tab raw ht⟩
    intro hkeep
    exact List.mem_filter.mpr ⟨List.mem_map.mpr ⟨raw, hraw, rfl⟩, hkeep⟩

/-- Witness for C7: at a concrete input whose first line carries leading,
trailing and doubled spaces, whose second line is a comment and whose
third is blank, the lexer output is the single compressed line. -/
theorem C7_witness :
    (cl "a b" ∈ LexText (cl "  a  b  \n # gone\n\nc;d")) ∧
    LexText (cl "  a  b  \n # gone\n\nc;d") = [cl "a b"] ∧
    noDub (cl "a b") = true := by
  refine ⟨?_, by decide, by decide⟩
  have h := (C7_lexer_contract (cl "  a  b  \n # gone\n\nc;d")).2.2
    (cl "  a  b  ") (by decide)
  have h2 := h.1 (by decide)
  have h3 : squeezeLine (cl "  a  b  ") = cl "a b" := by decide
  rw [h3] at h2
  exact h2

/-! Invariants of compiled keymap tables, for claims about the parse and
dispatch interplay. -/

/-- A sub-key map whose only possible key is the tolerant flag. -/
def kSubOK (sub : List (CStr × CStr)) : Prop :=
  ∀ n x, aGet sub n = some x → n = cl "tolerant"

/-- An entry of a compiled keymap section: a callback resolved in the
registry of its phase, with a tolerant-only sub-key map. -/
def kEntryOK (reg : Registries) (s : CStr) (e : CEntry) : Prop :=
  (∃ nm args, e.1 = .cb nm args ∧ resolveNm reg s nm = true) ∧ kSubOK e.2

/-- All entries of a section satisfy the keymap entry invariant. -/
def kSecOK (reg : Registries) (s : CStr) (sec : CSection) : Prop :=
  ∀ k e, aGet sec k = some e → kEntryOK reg s e

/-- All sections of a tree satisfy the keymap section invariant. -/
def kTreeOK (reg : Registries) (t : CTree) : Prop :=
  ∀ s sec, aGet t s = some sec → kSecOK reg s sec

theorem checkSubkey_keymap (s k n : CStr)
    (h : CheckSubkeyName .keymap s k n = true) : n = cl "tolerant" := by
  unfold CheckSubkeyName at h
  exact of_decide_eq_true h

theorem parseValueKeymap_ne_nul (reg : Registries) (sctn value : CStr)
    (h : parseValueKeymap reg sctn value ≠ .nul) :
    ∃ nm args, parseValueKeymap reg sctn value = .cb nm args ∧
      resolveNm reg sctn nm = true := by
  unfold parseValueKeymap at h ⊢
  by_cases hr : resolveNm reg sctn (kmFunctionName value) = true
  · exact ⟨kmFunctionName value, kmFunctionArgs value, by rw [if_pos hr], hr⟩
  · rw [if_neg hr] at h
    exact absurd rfl h

theorem kTreeOK_flush (reg : Registries) (st : PState)
    (ht : kTreeOK reg st.tree) (hs : kSecOK reg st.secName st.sec) :
    kTreeOK reg (flushTree st) := by
  unfold flushTree
  by_cases h : st.secName = []
  · rw [if_pos h]; exact ht
  · rw [if_neg h]
    intro s sec hget
    rw [aGet_aSet] at hget
    by_cases he : st.secName = s
    · rw [if_pos he] at hget
      rw [← Option.some.inj hget]
      exact he ▸ hs
    · rw [if_neg he] at hget
      exact ht s sec hget

theorem stepLine_keymap_inv (reg : Registries) (fat : Nat) (st : PState)
    (line : CStr) (st2 : PState)
    (h : stepLine reg fat .keymap st line = .ok st2)
    (ht : kTreeOK reg st.tree) (hs : kSecOK reg st.secName st.sec) :
    kTreeOK reg st2.tree ∧ kSecOK reg st2.secName st2.sec := by
  unfold stepLine at h
  by_cases hh : line.head? = some '['
  · rw [if_pos hh] at h
    by_cases hc : CheckSectionName .keymap (lineSecName line) = true
    · rw [if_pos hc] at h
      rw [← Except.ok.inj h]
      exact ⟨kTreeOK_flush reg st ht hs, fun k e hk => by cases hk⟩
    · rw [if_neg hc] at h
      unfold SelWarning at h
      by_cases hf : fat = 0
      · rw [if_pos hf] at h; cases h
      · rw [if_neg hf] at h
        rw [← Except.ok.inj h]
        exact ⟨kTreeOK_flush reg st ht hs, hs⟩
  · rw [if_neg hh] at h
    by_cases ht2 : line.head? = some '\t'
    · rw [if_pos ht2] at h
      by_cases hc : CheckSubkeyName .keymap st.secName st.key
          (lineSub line) = true
      · rw [if_pos hc] at h
        have hn := checkSubkey_keymap _ _ _ hc
        cases hg : aGet st.sec st.key with
        | none => rw [hg] at h; cases h
        | some e =>
            obtain ⟨v, sub⟩ := e
            rw [hg] at h
            rw [← Except.ok.inj h]
            refine ⟨ht, ?_⟩
            intro k e hk
            rw [aGet_aSet] at hk
            by_cases hke : st.key = k
            · rw [if_pos hke] at hk
              rw [← Option.some.inj hk]
              obtain ⟨hv, hsub⟩ := hs st.key (v, sub) hg
              refine ⟨hv, ?_⟩
              intro n x hx
              rw [aGet_aSet] at hx
              by_cases hns : lineSub line = n
              · rw [← hns]; exact hn
              · rw [if_neg hns] at hx
                exact hsub n x hx
            · rw [if_neg hke] at hk
              exact hs k e hk
      · rw [if_neg hc] at h; cases h
    · rw [if_neg ht2] at h
      rw [if_pos (by unfold CheckKeyName; rfl)] at h
      simp only [ParseValue] at h
      by_cases hv : parseValueKeymap reg st.secName (lineVal line) = .nul
      · rw [if_pos (by exact ⟨by trivial, hv⟩)] at h
        unfold SelError at h
        by_cases hf : fat < 2
        · rw [if_pos hf] at h; cases h
        · rw [if_neg hf] at h
          rw [← Except.ok.inj h]
          exact ⟨ht, hs⟩
      · rw [if_neg (by intro hcon; exact hv hcon.2)] at h
        rw [← Except.ok.inj h]
        refine ⟨ht, ?_⟩
        intro k e hk
        rw [aGet_aSet] at hk
        by_cases hke : lineKey line = k
        · rw [if_pos hke] at hk
          rw [← Option.some.inj hk]
          obtain ⟨nm, args, hcb, hres⟩ :=
            parseValueKeymap_ne_nul reg st.secName _ hv
          exact ⟨⟨nm, args, hcb, hres⟩, fun n x hx => by cases hx⟩
        · rw [if_neg hke] at hk
          exact hs k e hk

theorem runLines_keymap_inv (reg : Registries) (fat : Nat) :
    ∀ (lines : List CStr) (st st2 : PState),
      runLines reg fat .keymap st lines = .ok st2 →
      kTreeOK reg st.tree → kSecOK reg st.secName st.sec →
      kTreeOK reg st2.tree ∧ kSecOK reg st2.secName st2.sec := by
  intro lines
  induction lines with
  | nil =>
      intro st st2 h ht hs
      rw [← Except.ok.inj h]
      exact ⟨ht, hs⟩
  | cons l rest ih =>
      intro st st2 h ht hs
      unfold runLines at h
      cases hstep : stepLine reg fat .keymap st l with
      | error e => rw [hstep] at h; cases h
      | ok stm =>
          rw [hstep] at h
          obtain ⟨ht2, hs2⟩ := stepLine_keymap_inv reg fat st l stm hstep ht hs
          exact ih stm st2 h ht2 hs2

theorem parse_keymap_treeOK (reg : Registries) (fat : Nat) (text : CStr)
    (tree : CTree) (h : ParseConfig reg fat .keymap text = .ok tree) :
    kTreeOK reg tree := by
  unfold ParseConfig at h
  cases hr : runLines reg fat .keymap initState (LexText text) with
  | error e => rw [hr] at h; cases h
  | ok st =>
      rw [hr] at h
      simp only [postCheck] at h
      obtain ⟨ht, hs⟩ := runLines_keymap_inv reg fat (LexText text)
        initState st hr (fun s sec hg => by cases hg) (fun k e hk => by cases hk)
      rw [← Except.ok.inj h]
      exact kTreeOK_flush reg st ht hs

/-- Claim C10: in every successfully parsed keymap table each sub-key map
can contain at most the key tolerant (the sub-key validator rejects every
other name fatally), and consequently a binding whose tolerant sub-key is
not truthy passes the modifier guards of HandleDown only when all four
live modifier flags are unasserted. -/
theorem C10_tolerant_only_subkeys :
    ∀ (reg : Registries) (fat : Nat) (text : CStr) (tree : CTree),
      ParseConfig reg fat .keymap text = .ok tree →
      (∀ s sec k v sub n x, aGet tree s = some sec →
        aGet sec k = some (v, sub) → aGet sub n = some x →
        n = cl "tolerant") ∧
      (∀ (ev : KeyEv) (sec : CSection) (v : ConfigValue)
          (sub : List (CStr × CStr)),
        (if ev.rep then aGet tree (cl "Hold") else aGet tree (cl "Press")) =
          some sec →
        aGet sec ev.code = some (v, sub) →
        jsTruthy (aGet sub (cl "tolerant")) = false →
        HandleDown tree ev ≠ .noop →
        ev.shift = false ∧ ev.alt = false ∧ ev.ctrl = false ∧
          ev.meta = false) := by
  intro reg fat text tree hp
  have htree := parse_keymap_treeOK reg fat text tree hp
  constructor
  · intro s sec k v sub n x hg hk hx
    exact ((htree s sec hg) k (v, sub) hk).2 n x hx
  · intro ev sec v sub hsec hcode htol hnoop
    have hsub : kSubOK sub := by
      cases hr : ev.rep with
      | true =>
          rw [hr] at hsec
          simp only [if_pos] at hsec
          exact ((htree (cl "Hold") sec hsec) ev.code (v, sub) hcode).2
      | false =>
          rw [hr] at hsec
          simp only [Bool.false_eq_true, if_neg] at hsec
          exact ((htree (cl "Press") sec hsec) ev.code (v, sub) hcode).2
    have hshift : aGet sub (cl "shift") = none := by
      cases hx : aGet sub (cl "shift") with
      | none => rfl
      | some x => exact absurd (hsub (cl "shift") x hx) (by decide)
    have halt : aGet sub (cl "alt") = none := by
      cases hx : aGet sub (cl "alt") with
      | none => rfl
      | some x => exact absurd (hsub (cl "alt") x hx) (by decide)
    have hctrl : aGet sub (cl "control") = none := by
      cases hx : aGet sub (cl "control") with
      | none => rfl
      | some x => exact absurd (hsub (cl "control") x hx) (by decide)
    have hmeta : aGet sub (cl "meta") = none := by
      cases hx : aGet sub (cl "meta") with
      | none => rfl
      | some x => exact absurd (hsub (cl "meta") x hx) (by decide)
    have h1 : ev.shift = false := by
      by_cases hf : ev.shift = true
      · exfalso
        apply hnoop
        simp [HandleDown, hsec, hcode, htol, hshift, hf]
      · exact Bool.not_eq_true _ |>.mp hf
    have h2 : ev.alt = false := by
      by_cases hf : ev.alt = true
      · exfalso
        apply hnoop
        simp [HandleDown, hsec, hcode, htol, hshift, halt, h1, hf]
      · exact Bool.not_eq_true _ |>.mp hf
    have h3 : ev.ctrl = false := by
      by_cases hf : ev.ctrl = true
      · exfalso
        apply hnoop
        simp [HandleDown, hsec, hcode, htol, hshift, halt, hctrl, h1, h2, hf]
      · exact Bool.not_eq_true _ |>.mp hf
    have h4 : ev.meta = false := by
      by_cases hf : ev.meta = true
      · exfalso
        apply hnoop
        simp [HandleDown, hsec, hcode, htol, hshift, halt, hctrl, hmeta,
              h1, h2, h3, hf]
      · exact Bool.not_eq_true _ |>.mp hf
    exact ⟨h1, h2, h3, h4⟩

/-- Witness for C10: the parse of a concrete keymap with a tolerant
sub-key satisfies the hypotheses, and the sub-key name is forced to be
tolerant. -/
theorem C10_witness :
    cl "tolerant" = cl "tolerant" :=
  (C10_tolerant_only_subkeys ⟨[cl "Jump"], [], []⟩ 2
    (cl "[Press]\nKeyW=Jump\n\ttolerant=x")
    [(cl "Press", [(cl "KeyW",
      (.cb (cl "Jump") none, [(cl "tolerant", cl "x")]))])]
    (by decide)).1
    (cl "Press")
    [(cl "KeyW", (.cb (cl "Jump") none, [(cl "tolerant", cl "x")]))]
    (cl "KeyW") (.cb (cl "Jump") none) [(cl "tolerant", cl "x")]
    (cl "tolerant") (cl "x")
    (by decide) (by decide) (by decide)

/-- Validity of a value for the global kind, following the legal enum
values stated by the spec: mode must be Debug or Release, fatality level
must be All, Errors or Panics, and every key outside the Selenium section
is unconstrained. -/
def gValueOK (sctn key value : CStr) : Bool :=
  if sctn = cl "Selenium" then
    if key = cl "mode" then
      value = cl "Debug" || value = cl "Release"
    else
      value = cl "All" || value = cl "Errors" || value = cl "Panics"
  else true

/-- Well-formedness of a lexed application-metadata line sequence in the
context of a current section name and current key, following the grammar
of the spec: headers carry legal section names, key lines appear inside a
section with legal keys and parseable enum values, and sub-key lines
carry legal sub-keys and attach to a key opened in the current
section. -/
def wfG : CStr → Option CStr → List CStr → Bool
  | _, _, [] => true
  | sctn, curKey, l :: rest =>
      if l.head? = some '[' then
        CheckSectionName .global (lineSecName l) && wfG (lineSecName l) none rest
      else if l.head? = some '\t' then
        match curKey with
        | none => false
        | some k =>
            CheckSubkeyName .global sctn k (lineSub l) && wfG sctn curKey rest
      else
        decide (sctn ≠ []) && CheckKeyName .global sctn (lineKey l) &&
        gValueOK sctn (lineKey l) (lineVal l) &&
        wfG sctn (some (lineKey l)) rest

theorem parseValueGlobal_not_nul (sctn key value : CStr) (v : ConfigValue)
    (h : parseValueGlobal sctn key value = .ok v) : v ≠ .nul := by
  unfold parseValueGlobal parseValueGlobalTail at h
  split_ifs at h
  all_goals cases h
  all_goals intro hc
  all_goals cases hc

theorem parseValueGlobal_ok (sctn key value : CStr)
    (h : gValueOK sctn key value = true) :
    ∃ v, parseValueGlobal sctn key value = .ok v := by
  unfold gValueOK at h
  unfold parseValueGlobal
  by_cases hsel : sctn = cl "Selenium"
  · rw [if_pos hsel] at h ⊢
    by_cases hk : key = cl "mode"
    · rw [if_pos hk] at h ⊢
      rcases Bool.or_eq_true_iff.mp h with hd | hr
      · rw [if_pos (of_decide_eq_true hd)]
        exact ⟨.num 0, rfl⟩
      · have hrv := of_decide_eq_true hr
        rw [if_neg (by rw [hrv]; decide), if_pos hrv]
        exact ⟨.num 1, rfl⟩
    · rw [if_neg hk] at h ⊢
      rcases Bool.or_eq_true_iff.mp h with hae | hp
      · rcases Bool.or_eq_true_iff.mp hae with ha | he
        · rw [if_pos (of_decide_eq_true ha)]
          exact ⟨.num 0, rfl⟩
        · have hev := of_decide_eq_true he
          rw [if_neg (by rw [hev]; decide), if_pos hev]
          exact ⟨.num 1, rfl⟩
      · have hpv := of_decide_eq_true hp
        rw [if_neg (by rw [hpv]; decide), if_neg (by rw [hpv]; decide),
            if_pos hpv]
        exact ⟨.num 2, rfl⟩
  · rw [if_neg hsel]
    exact ⟨parseValueGlobalTail key value, rfl⟩

theorem runLines_global_ok (reg : Registries) (fat : Nat) :
    ∀ (lines : List CStr) (st : PState) (curKey : Option CStr),
      wfG st.secName curKey lines = true →
      (∀ k, curKey = some k → st.key = k ∧ (aGet st.sec k).isSome) →
      ∃ st2, runLines reg fat .global st lines = .ok st2 := by
  intro lines
  induction lines with
  | nil => intro st ck hwf hck; exact ⟨st, rfl⟩
  | cons l rest ih =>
      intro st ck hwf hck
      unfold wfG at hwf
      by_cases hh : l.head? = some '['
      · rw [if_pos hh] at hwf
        obtain ⟨hcs, hrest⟩ := Bool.and_eq_true_iff.mp hwf
        have hstep : stepLine reg fat .global st l =
            .ok ⟨flushTree st, lineSecName l, st.key, []⟩ := by
          unfold stepLine
          rw [if_pos hh]
          rw [if_pos hcs]
        obtain ⟨st2, h2⟩ := ih ⟨flushTree st, lineSecName l, st.key, []⟩ none
          hrest (by intro k hk; cases hk)
        refine ⟨st2, ?_⟩
        unfold runLines
        rw [hstep]
        exact h2
      · rw [if_neg hh] at hwf
        by_cases ht2 : l.head? = some '\t'
        · rw [if_pos ht2] at hwf
          cases ck with
          | none => cases hwf
          | some k =>
              obtain ⟨hkey, hsome⟩ := hck k rfl
              obtain ⟨hcs, hrest⟩ := Bool.and_eq_true_iff.mp hwf
              obtain ⟨e, hge⟩ := Option.isSome_iff_exists.mp hsome
              obtain ⟨v, sub⟩ := e
              have hcs2 : CheckSubkeyName .global st.secName st.key
                  (lineSub l) = true := by rw [hkey]; exact hcs
              have hge2 : aGet st.sec st.key = some (v, sub) := by
                rw [hkey]; exact hge
              have hstep : stepLine reg fat .global st l =
                  .ok ⟨st.tree, st.secName, st.key,
                       aSet st.sec st.key
                         (v, aSet sub (lineSub l) (lineVal l))⟩ := by
                unfold stepLine
                rw [if_neg hh, if_pos ht2, if_pos hcs2, hge2]
              obtain ⟨st2, h2⟩ := ih
                ⟨st.tree, st.secName, st.key,
                 aSet st.sec st.key (v, aSet sub (lineSub l) (lineVal l))⟩
                (some k) hrest
                (by
                  intro k2 hk2
                  have hk2e : k = k2 := Option.some.inj hk2
                  subst hk2e
                  refine ⟨hkey, ?_⟩
                  show (aGet (aSet st.sec st.key
                    (v, aSet sub (lineSub l) (lineVal l))) k).isSome = true
                  rw [hkey, aGet_aSet, if_pos rfl]
                  rfl)
              refine ⟨st2, ?_⟩
              unfold runLines
              rw [hstep]
              exact h2
        · rw [if_neg ht2] at hwf
          obtain ⟨hpre, hrest⟩ := Bool.and_eq_true_iff.mp hwf
          obtain ⟨hpre2, hval⟩ := Bool.and_eq_true_iff.mp hpre
          obtain ⟨_, hkey⟩ := Bool.and_eq_true_iff.mp hpre2
          obtain ⟨v, hv⟩ := parseValueGlobal_ok st.secName (lineKey l)
            (lineVal l) hval
          have hstep : stepLine reg fat .global st l =
              .ok ⟨st.tree, st.secName, lineKey l,
                   aSet st.sec (lineKey l) (v, [])⟩ := by
            unfold stepLine
            rw [if_neg hh, if_neg ht2, if_pos hkey]
            simp only [ParseValue]
            rw [hv]
            exact if_neg (fun hc => ConfigType.noConfusion hc.1)
          obtain ⟨st2, h2⟩ := ih
            ⟨st.tree, st.secName, lineKey l, aSet st.sec (lineKey l) (v, [])⟩
            (some (lineKey l)) hrest
            (by
              intro k2 hk2
              rw [← Option.some.inj hk2]
              refine ⟨rfl, ?_⟩
              rw [aGet_aSet, if_pos rfl]
              rfl)
          refine ⟨st2, ?_⟩
          unfold runLines
          rw [hstep]
          exact h2

/-- A section none of whose entries carries the null value. -/
def noNulSec (sec : CSection) : Prop :=
  ∀ k v sub, aGet sec k = some (v, sub) → v ≠ ConfigValue.nul

/-- A tree none of whose entries carries the null value. -/
def noNulT (t : CTree) : Prop := ∀ s sec, aGet t s = some sec → noNulSec sec

theorem noNul_flush (st : PState) (ht : noNulT st.tree)
    (hs : noNulSec st.sec) : noNulT (flushTree st) := by
  unfold flushTree
  by_cases h : st.secName = []
  · rw [if_pos h]; exact ht
  · rw [if_neg h]
    intro s sec hget
    rw [aGet_aSet] at hget
    by_cases he : st.secName = s
    · rw [if_pos he] at hget
      rw [← Option.some.inj hget]
      exact hs
    · rw [if_neg he] at hget
      exact ht s sec hget

theorem stepLine_global_noNul (reg : Registries) (fat : Nat) (st : PState)
    (line : CStr) (st2 : PState)
    (h : stepLine reg fat .global st line = .ok st2)
    (ht : noNulT st.tree) (hs : noNulSec st.sec) :
    noNulT st2.tree ∧ noNulSec st2.sec := by
  unfold stepLine at h
  by_cases hh : line.head? = some '['
  · rw [if_pos hh] at h
    by_cases hc : CheckSectionName .global (lineSecName line) = true
    · rw [if_pos hc] at h
      rw [← Except.ok.inj h]
      exact ⟨noNul_flush st ht hs, fun k v sub hk => by cases hk⟩
    · rw [if_neg hc] at h; cases h
  · rw [if_neg hh] at h
    by_cases ht2 : line.head? = some '\t'
    · rw [if_pos ht2] at h
      by_cases hc : CheckSubkeyName .global st.secName st.key
          (lineSub line) = true
      · rw [if_pos hc] at h
        cases hg : aGet st.sec st.key with
        | none => rw [hg] at h; cases h
        | some e =>
            obtain ⟨v, sub⟩ := e
            rw [hg] at h
            rw [← Except.ok.inj h]
            refine ⟨ht, ?_⟩
            intro k v2 sub2 hk
            rw [aGet_aSet] at hk
            by_cases hke : st.key = k
            · rw [if_pos hke] at hk
              have he := Prod.mk.inj (Option.some.inj hk)
              rw [← he.1]
              exact hs st.key v sub hg
            · rw [if_neg hke] at hk
              exact hs k v2 sub2 hk
      · rw [if_neg hc] at h; cases h
    · rw [if_neg ht2] at h
      by_cases hkn : CheckKeyName .global st.secName (lineKey line) = true
      · rw [if_pos hkn] at h
        simp only [ParseValue] at h
        cases hv : parseValueGlobal st.secName (lineKey line) (lineVal line) with
        | error e => simp only [hv] at h; exact Except.noConfusion h
        | ok v =>
            simp only [hv] at h
            rw [if_neg (fun hc => ConfigType.noConfusion hc.1)] at h
            rw [← Except.ok.inj h]
            refine ⟨ht, ?_⟩
            intro k v2 sub2 hk
            rw [aGet_aSet] at hk
            by_cases hke : lineKey line = k
            · rw [if_pos hke] at hk
              have he := Prod.mk.inj (Option.some.inj hk)
              rw [← he.1]
              exact parseValueGlobal_not_nul st.secName (lineKey line)
                (lineVal line) v hv
            · rw [if_neg hke] at hk
              exact hs k v2 sub2 hk
      · rw [if_neg hkn] at h; cases h

theorem runLines_global_noNul (reg : Registries) (fat : Nat) :
    ∀ (lines : List CStr) (st st2 : PState),
      runLines reg fat .global st lines = .ok st2 →
      noNulT st.tree → noNulSec st.sec →
      noNulT st2.tree ∧ noNulSec st2.sec := by
  intro lines
  induction lines with
  | nil =>
      intro st st2 h ht hs
      rw [← Except.ok.inj h]
      exact ⟨ht, hs⟩
  | cons l rest ih =>
      intro st st2 h ht hs
      unfold runLines at h
      cases hstep : stepLine reg fat .global st l with
      | error e => rw [hstep] at h; cases h
      | ok stm =>
          rw [hstep] at h
          obtain ⟨ht2, hs2⟩ := stepLine_global_noNul reg fat st l stm hstep ht hs
          exact ih stm st2 h ht2 hs2

/-- Presence of the four required application-metadata keys in a tree, as
the claim states them: mode under Selenium, title, author and license
under Game. -/
def requiredPresent (tree : CTree) : Bool :=
  match aGet tree (cl "Selenium"), aGet tree (cl "Game") with
  | some es, some gs =>
      (aGet es (cl "mode")).isSome && (aGet gs (cl "title")).isSome &&
      (aGet gs (cl "author")).isSome && (aGet gs (cl "license")).isSome
  | _, _ => false

theorem isSome_of_not_isNone {A : Type} (o : Option A)
    (h : ¬ o.isNone = true) : o.isSome = true := by
  cases o with
  | none => exact absurd rfl h
  | some x => rfl

theorem postCheck_global_of_required (tree : CTree)
    (h : requiredPresent tree = true) : postCheck .global tree = .ok () := by
  unfold requiredPresent at h
  cases h1 : aGet tree (cl "Selenium") with
  | none => rw [h1] at h; cases h
  | some es =>
      cases h2 : aGet tree (cl "Game") with
      | none => rw [h1, h2] at h; cases h
      | some gs =>
          rw [h1, h2] at h
          have h3 : ((aGet es (cl "mode")).isSome &&
              (aGet gs (cl "title")).isSome &&
              (aGet gs (cl "author")).isSome &&
              (aGet gs (cl "license")).isSome) = true := h
          obtain ⟨hml, hlic⟩ := Bool.and_eq_true_iff.mp h3
          obtain ⟨hmt, haut⟩ := Bool.and_eq_true_iff.mp hml
          obtain ⟨hmode, htit⟩ := Bool.and_eq_true_iff.mp hmt
          unfold postCheck
          rw [h1, h2]
          refine if_neg ?_
          rintro (hx | hx | hx | hx)
          · obtain ⟨x, he⟩ := Option.isSome_iff_exists.mp hmode
            rw [he] at hx; cases hx
          · obtain ⟨x, he⟩ := Option.isSome_iff_exists.mp htit
            rw [he] at hx; cases hx
          · obtain ⟨x, he⟩ := Option.isSome_iff_exists.mp haut
            rw [he] at hx; cases hx
          · obtain ⟨x, he⟩ := Option.isSome_iff_exists.mp hlic
            rw [he] at hx; cases hx

theorem required_of_postCheck_global (tree : CTree)
    (h : postCheck .global tree = .ok ()) : requiredPresent tree = true := by
  unfold postCheck at h
  cases h1 : aGet tree (cl "Selenium") with
  | none => rw [h1] at h; cases h
  | some es =>
      cases h2 : aGet tree (cl "Game") with
      | none => rw [h1, h2] at h; cases h
      | some gs =>
          rw [h1, h2] at h
          have h3 : (if (aGet es (cl "mode")).isNone = true ∨
              (aGet gs (cl "title")).isNone = true ∨
              (aGet gs (cl "author")).isNone = true ∨
              (aGet gs (cl "license")).isNone = true
            then (Except.error (ConfigError.thrown malMsg) :
                   Except ConfigError Unit)
            else .ok ()) = .ok () := h
          by_cases hc : (aGet es (cl "mode")).isNone = true ∨
              (aGet gs (cl "title")).isNone = true ∨
              (aGet gs (cl "author")).isNone = true ∨
              (aGet gs (cl "license")).isNone = true
          · rw [if_pos hc] at h3; cases h3
          · push_neg at hc
            obtain ⟨n1, n2, n3, n4⟩ := hc
            unfold requiredPresent
            rw [h1, h2]
            show ((aGet es (cl "mode")).isSome &&
              (aGet gs (cl "title")).isSome &&
              (aGet gs (cl "author")).isSome &&
              (aGet gs (cl "license")).isSome) = true
            rw [isSome_of_not_isNone _ n1, isSome_of_not_isNone _ n2,
                isSome_of_not_isNone _ n3, isSome_of_not_isNone _ n4]
            rfl

/-- Claim C4: for application metadata, any well-formed input (legal
sections and keys, parseable enum values, sub-keys attached to open keys)
parses without error, and when the resulting tree carries the four
required keys the whole load succeeds with that tree; conversely every
successful load yields a tree containing mode, title, author and license,
none of whose values is null (so a missing required key makes the load
fail); and the two enums decode Debug, Release to 0, 1 and All, Errors,
Panics to 0, 1, 2. -/
theorem C4_global_metadata :
    ∀ (reg : Registries) (fat : Nat) (text : CStr),
      (wfG [] none (LexText text) = true →
        ∃ st, runLines reg fat .global initState (LexText text) = .ok st ∧
          (requiredPresent (flushTree st) = true →
            ParseConfig reg fat .global text = .ok (flushTree st))) ∧
      (∀ tree, ParseConfig reg fat .global text = .ok tree →
        requiredPresent tree = true ∧ noNulT tree) ∧
      parseValueGlobal (cl "Selenium") (cl "mode") (cl "Debug") =
        .ok (.num 0) ∧
      parseValueGlobal (cl "Selenium") (cl "mode") (cl "Release") =
        .ok (.num 1) ∧
      parseValueGlobal (cl "Selenium") (cl "fatality_level") (cl "All") =
        .ok (.num 0) ∧
      parseValueGlobal (cl "Selenium") (cl "fatality_level") (cl "Errors") =
        .ok (.num 1) ∧
      parseValueGlobal (cl "Selenium") (cl "fatality_level") (cl "Panics") =
        .ok (.num 2) := by
  intro reg fat text
  refine ⟨?_, ?_, by decide, by decide, by decide, by decide, by decide⟩
  · intro hwf
    obtain ⟨st, hrun⟩ := runLines_global_ok reg fat (LexText text) initState
      none hwf (by intro k hk; cases hk)
    refine ⟨st, hrun, ?_⟩
    intro hreq
    unfold ParseConfig
    simp only [hrun, postCheck_global_of_required (flushTree st) hreq]
  · intro tree h
    unfold ParseConfig at h
    cases hr : runLines reg fat .global initState (LexText text) with
    | error e => simp only [hr] at h; exact Except.noConfusion h
    | ok st =>
        simp only [hr] at h
        cases hpc : postCheck .global (flushTree st) with
        | error e => simp only [hpc] at h; exact Except.noConfusion h
        | ok u =>
            obtain ⟨⟩ := u
            simp only [hpc] at h
            have htree : tree = flushTree st := (Except.ok.inj h).symm
            obtain ⟨hnt, hns⟩ := runLines_global_noNul reg fat (LexText text)
              initState st hr (fun s sec hg => by cases hg)
              (fun k v sub hk => by cases hk)
            rw [htree]
            exact ⟨required_of_postCheck_global (flushTree st) hpc,
                   noNul_flush st hnt hns⟩

/-- A concrete well-formed application-metadata input containing the four
required keys. -/
def c4Input : CStr := cl
  "[Selenium]\nmode=Debug\nfatality_level=Panics\n[Game]\ntitle=T\nauthor=A\nlicense=L"

/-- Witness for C4: the concrete valid input is well-formed, parses and
loads successfully, and its tree passes the required-key check. -/
theorem C4_witness :
    wfG [] none (LexText c4Input) = true ∧
    (∃ st, runLines regEmpty 2 .global initState (LexText c4Input) = .ok st ∧
      (requiredPresent (flushTree st) = true →
        ParseConfig regEmpty 2 .global c4Input = .ok (flushTree st))) :=
  ⟨by decide, (C4_global_metadata regEmpty 2 c4Input).1 (by decide)⟩

/-! Machinery for the keymap skip-and-continue claim. -/

/-- Resolution of a raw keymap value against the registry of a section:
the extracted callback name is looked up in the phase registry chosen by
the section name. -/
def resolveK (reg : Registries) (sctn value : CStr) : Bool :=
  resolveNm reg sctn (kmFunctionName value)

/-- Well-formedness of a lexed keymap line sequence in the context of a
current section and a flag telling whether the most recent key line was
retained (its callback resolved): headers carry legal phase names, and
sub-key lines carry only the tolerant flag and attach only to a retained
key. Key lines are unrestricted: an unresolvable callback is legal input
that the parser skips. -/
def wfK (reg : Registries) : CStr → Bool → List CStr → Bool
  | _, _, [] => true
  | sctn, curOk, l :: rest =>
      if l.head? = some '[' then
        CheckSectionName .keymap (lineSecName l) &&
        wfK reg (lineSecName l) false rest
      else if l.head? = some '\t' then
        curOk && decide (lineSub l = cl "tolerant") && wfK reg sctn curOk rest
      else
        wfK reg sctn (resolveK reg sctn (lineVal l)) rest

/-- The section names of all header lines, in order. -/
def headerNames : List CStr → List CStr
  | [] => []
  | l :: rest =>
      if l.head? = some '[' then lineSecName l :: headerNames rest
      else headerNames rest

/-- Pairwise distinctness of a list of names. -/
def noDupStrs : List CStr → Bool
  | [] => true
  | x :: rest => !(decide (x ∈ rest)) && noDupStrs rest

/-- The key events of a lexed keymap line sequence: each key line paired
with the section it falls under, tracking that an illegal header does not
change the current section. -/
def keyEventsK : CStr → List CStr → List (CStr × CStr × CStr)
  | _, [] => []
  | sctn, l :: rest =>
      if l.head? = some '[' then
        if CheckSectionName .keymap (lineSecName l) then
          keyEventsK (lineSecName l) rest
        else keyEventsK sctn rest
      else if l.head? = some '\t' then keyEventsK sctn rest
      else (sctn, lineKey l, lineVal l) :: keyEventsK sctn rest

/-- Presence of a key under a section name in the parser state, either in
the still-open current section or in the accumulated tree. -/
def presentSt (st : PState) (s k : CStr) : Prop :=
  (s = st.secName ∧ ¬ s = [] ∧ (aGet st.sec k).isSome = true) ∨
  (¬ s = st.secName ∧ ∃ sec, aGet st.tree s = some sec ∧
    (aGet sec k).isSome = true)

theorem resolveNm_ne_nil (reg : Registries) (s nm : CStr)
    (h : resolveNm reg s nm = true) : ¬ s = [] := by
  intro hs
  subst hs
  unfold resolveNm at h
  rw [if_neg (by decide), if_neg (by decide), if_neg (by decide)] at h
  cases h

theorem parseValueKeymap_resolved (reg : Registries) (s value : CStr)
    (h : resolveK reg s value = true) :
    parseValueKeymap reg s value =
      .cb (kmFunctionName value) (kmFunctionArgs value) := by
  unfold parseValueKeymap
  unfold resolveK at h
  rw [if_pos h]

theorem parseValueKeymap_unresolved (reg : Registries) (s value : CStr)
    (h : resolveK reg s value = false) :
    parseValueKeymap reg s value = .nul := by
  unfold parseValueKeymap
  unfold resolveK at h
  rw [if_neg (fun hc => by rw [hc] at h; cases h)]

theorem stepKm_header (reg : Registries) (fat : Nat) (st : PState)
    (l : CStr) (hh : l.head? = some '[')
    (hc : CheckSectionName .keymap (lineSecName l) = true) :
    stepLine reg fat .keymap st l =
      .ok ⟨flushTree st, lineSecName l, st.key, []⟩ := by
  unfold stepLine
  rw [if_pos hh, if_pos hc]

theorem stepKm_sub (reg : Registries) (fat : Nat) (st : PState) (l : CStr)
    (hh : ¬ l.head? = some '[') (ht : l.head? = some '\t')
    (hsub : CheckSubkeyName .keymap st.secName st.key (lineSub l) = true)
    (v : ConfigValue) (sub : List (CStr × CStr))
    (hget : aGet st.sec st.key = some (v, sub)) :
    stepLine reg fat .keymap st l =
      .ok ⟨st.tree, st.secName, st.key,
           aSet st.sec st.key (v, aSet sub (lineSub l) (lineVal l))⟩ := by
  unfold stepLine
  rw [if_neg hh, if_pos ht, if_pos hsub, hget]

theorem stepKm_key_resolved (reg : Registries) (fat : Nat) (st : PState)
    (l : CStr) (hh : ¬ l.head? = some '[') (ht : ¬ l.head? = some '\t')
    (hres : resolveK reg st.secName (lineVal l) = true) :
    stepLine reg fat .keymap st l =
      .ok ⟨st.tree, st.secName, lineKey l,
           aSet st.sec (lineKey l)
             (.cb (kmFunctionName (lineVal l)) (kmFunctionArgs (lineVal l)),
              [])⟩ := by
  unfold stepLine
  rw [if_neg hh, if_neg ht, if_pos (by unfold CheckKeyName; rfl)]
  simp only [ParseValue,
    parseValueKeymap_resolved reg st.secName (lineVal l) hres]
  rw [if_neg (fun hc => ConfigValue.noConfusion hc.2)]

theorem stepKm_key_skipped (reg : Registries) (st : PState) (l : CStr)
    (hh : ¬ l.head? = some '[') (ht : ¬ l.head? = some '\t')
    (hres : resolveK reg st.secName (lineVal l) = false) :
    stepLine reg 2 .keymap st l =
      .ok ⟨st.tree, st.secName, lineKey l, st.sec⟩ := by
  unfold stepLine
  rw [if_neg hh, if_neg ht, if_pos (by unfold CheckKeyName; rfl)]
  simp only [ParseValue,
    parseValueKeymap_unresolved reg st.secName (lineVal l) hres]
  rw [if_pos ⟨by trivial, by trivial⟩]
  rfl

theorem headerNames_cons (l : CStr) (rest : List CStr) :
    headerNames (l :: rest) =
      if l.head? = some '[' then lineSecName l :: headerNames rest
      else headerNames rest := rfl

theorem keyEventsK_cons (sctn l : CStr) (rest : List CStr) :
    keyEventsK sctn (l :: rest) =
      if l.head? = some '[' then
        if CheckSectionName .keymap (lineSecName l) then
          keyEventsK (lineSecName l) rest
        else keyEventsK sctn rest
      else if l.head? = some '\t' then keyEventsK sctn rest
      else (sctn, lineKey l, lineVal l) :: keyEventsK sctn rest := rfl

theorem runLines_keymap_wf (reg : Registries) :
    ∀ (lines : List CStr) (st : PState) (curOk : Bool),
      wfK reg st.secName curOk lines = true →
      (curOk = true → (aGet st.sec st.key).isSome = true) →
      noDupStrs (headerNames lines) = true →
      ¬ st.secName ∈ headerNames lines →
      (∀ s, s ∈ headerNames lines → aGet st.tree s = none) →
      ∃ st2, runLines reg 2 .keymap st lines = .ok st2 ∧
        (∀ s k v, (s, k, v) ∈ keyEventsK st.secName lines →
          resolveK reg s v = true →
          ∃ sec, aGet (flushTree st2) s = some sec ∧
            (aGet sec k).isSome = true) ∧
        (∀ s k, ¬ s ∈ headerNames lines → presentSt st s k →
          ∃ sec, aGet (flushTree st2) s = some sec ∧
            (aGet sec k).isSome = true) := by
  intro lines
  induction lines with
  | nil =>
      intro st curOk hwf hok hnd hns htr
      refine ⟨st, rfl, ?_, ?_⟩
      · intro s k v hm
        exact absurd hm (List.not_mem_nil _)
      · intro s k hns2 hp
        rcases hp with ⟨hseq, hnenil, hsome⟩ | ⟨hsne, sec, hgt, hsome⟩
        · subst hseq
          refine ⟨st.sec, ?_, hsome⟩
          unfold flushTree
          rw [if_neg hnenil, aGet_aSet, if_pos rfl]
        · refine ⟨sec, ?_, hsome⟩
          unfold flushTree
          by_cases hz : st.secName = []
          · rw [if_pos hz]; exact hgt
          · rw [if_neg hz, aGet_aSet, if_neg (fun he => hsne he.symm)]
            exact hgt
  | cons l rest ih =>
      intro st curOk hwf hok hnd hns htr
      unfold wfK at hwf
      by_cases hh : l.head? = some '['
      · rw [if_pos hh] at hwf
        obtain ⟨hc, hrest⟩ := Bool.and_eq_true_iff.mp hwf
        have hhn : headerNames (l :: rest) =
            lineSecName l :: headerNames rest := by
          rw [headerNames_cons, if_pos hh]
        rw [hhn] at hnd hns htr
        obtain ⟨hnc, hndr⟩ := Bool.and_eq_true_iff.mp hnd
        have hnm_notin : ¬ lineSecName l ∈ headerNames rest := by
          intro hmem
          have hnc2 : (!(decide (lineSecName l ∈ headerNames rest))) = true :=
            hnc
          rw [decide_eq_true hmem] at hnc2
          cases hnc2
        have htr2 : ∀ s, s ∈ headerNames rest →
            aGet (flushTree st) s = none := by
          intro s hs
          have h0 : aGet st.tree s = none := htr s (List.mem_cons_of_mem _ hs)
          unfold flushTree
          by_cases hz : st.secName = []
          · rw [if_pos hz]; exact h0
          · rw [if_neg hz, aGet_aSet, if_neg ?_]
            · exact h0
            · intro he
              apply hns
              apply List.mem_cons_of_mem
              rw [he]
              exact hs
        obtain ⟨stf, hrun, hpres, hkeep⟩ :=
          ih ⟨flushTree st, lineSecName l, st.key, []⟩ false hrest
            (fun hcon => by cases hcon) hndr hnm_notin htr2
        refine ⟨stf, ?_, ?_, ?_⟩
        · unfold runLines
          simp only [stepKm_header reg 2 st l hh hc]
          exact hrun
        · intro s k v hm hres
          have hke : keyEventsK st.secName (l :: rest) =
              keyEventsK (lineSecName l) rest := by
            rw [keyEventsK_cons, if_pos hh, if_pos hc]
          rw [hke] at hm
          exact hpres s k v hm hres
        · intro s k hsni hp
          rw [hhn] at hsni
          have hs_ne_nm : ¬ s = lineSecName l := by
            intro he
            apply hsni
            rw [he]
            exact List.mem_cons_self _ _
          have hs_nir : ¬ s ∈ headerNames rest := by
            intro hmm2
            exact hsni (List.mem_cons_of_mem _ hmm2)
          apply hkeep s k hs_nir
          rcases hp with ⟨hseq, hnenil, hsome⟩ | ⟨hsne, sec, hgt, hsome⟩
          · right
            refine ⟨hs_ne_nm, st.sec, ?_, hsome⟩
            show aGet (flushTree st) s = some st.sec
            subst hseq
            unfold flushTree
            rw [if_neg hnenil, aGet_aSet, if_pos rfl]
          · right
            refine ⟨hs_ne_nm, sec, ?_, hsome⟩
            show aGet (flushTree st) s = some sec
            unfold flushTree
            by_cases hz : st.secName = []
            · rw [if_pos hz]; exact hgt
            · rw [if_neg hz, aGet_aSet, if_neg (fun he => hsne he.symm)]
              exact hgt
      · rw [if_neg hh] at hwf
        have hhn : headerNames (l :: rest) = headerNames rest := by
          rw [headerNames_cons, if_neg hh]
        rw [hhn] at hnd hns htr
        by_cases ht : l.head? = some '\t'
        · rw [if_pos ht] at hwf
          obtain ⟨hpre, hrest⟩ := Bool.and_eq_true_iff.mp hwf
          obtain ⟨hco, hsubt⟩ := Bool.and_eq_true_iff.mp hpre
          have hsub_eq := of_decide_eq_true hsubt
          obtain ⟨e, hge⟩ := Option.isSome_iff_exists.mp (hok hco)
          obtain ⟨v, sub⟩ := e
          have hcsk : CheckSubkeyName .keymap st.secName st.key
              (lineSub l) = true := by
            show decide (lineSub l = cl "tolerant") = true
            rw [hsub_eq]
            decide
          obtain ⟨stf, hrun, hpres, hkeep⟩ :=
            ih ⟨st.tree, st.secName, st.key,
                aSet st.sec st.key
                  (v, aSet sub (lineSub l) (lineVal l))⟩ curOk hrest
              (by
                intro hcur
                show (aGet (aSet st.sec st.key
                  (v, aSet sub (lineSub l) (lineVal l))) st.key).isSome = true
                rw [aGet_aSet, if_pos rfl]
                rfl)
              hnd hns htr
          refine ⟨stf, ?_, ?_, ?_⟩
          · unfold runLines
            simp only [stepKm_sub reg 2 st l hh ht hcsk v sub hge]
            exact hrun
          · intro s k v2 hm hres
            have hke : keyEventsK st.secName (l :: rest) =
                keyEventsK st.secName rest := by
              rw [keyEventsK_cons, if_neg hh, if_pos ht]
            rw [hke] at hm
            exact hpres s k v2 hm hres
          · intro s k hsni hp
            rw [hhn] at hsni
            apply hkeep s k hsni
            rcases hp with ⟨hseq, hnenil, hsome⟩ | ⟨hsne, sec, hgt, hsome⟩
            · left
              refine ⟨hseq, hnenil, ?_⟩
              show (aGet (aSet st.sec st.key
                (v, aSet sub (lineSub l) (lineVal l))) k).isSome = true
              exact aGet_aSet_isSome _ _ _ _ hsome
            · right
              exact ⟨hsne, sec, hgt, hsome⟩
        · rw [if_neg ht] at hwf
          have hkev : keyEventsK st.secName (l :: rest) =
              (st.secName, lineKey l, lineVal l) ::
                keyEventsK st.secName rest := by
            rw [keyEventsK_cons, if_neg hh, if_neg ht]
          by_cases hres : resolveK reg st.secName (lineVal l) = true
          · rw [hres] at hwf
            obtain ⟨stf, hrun, hpres, hkeep⟩ :=
              ih ⟨st.tree, st.secName, lineKey l,
                  aSet st.sec (lineKey l)
                    (.cb (kmFunctionName (lineVal l))
                         (kmFunctionArgs (lineVal l)), [])⟩ true hwf
                (by
                  intro hcur
                  show (aGet (aSet st.sec (lineKey l)
                    (.cb (kmFunctionName (lineVal l))
                         (kmFunctionArgs (lineVal l)), []))
                    (lineKey l)).isSome = true
                  rw [aGet_aSet, if_pos rfl]
                  rfl)
                hnd hns htr
            refine ⟨stf, ?_, ?_, ?_⟩
            · unfold runLines
              simp only [stepKm_key_resolved reg 2 st l hh ht hres]
              exact hrun
            · intro s k v2 hm hres2
              rw [hkev] at hm
              rcases List.mem_cons.mp hm with heq | hmr
              · have hs_eq : s = st.secName := congrArg Prod.fst heq
                have hk_eq : k = lineKey l :=
                  congrArg (fun p => p.2.1) heq
                apply hkeep s k
                · rw [hs_eq]; exact hns
                · left
                  refine ⟨hs_eq, ?_, ?_⟩
                  · intro hserr
                    rw [hserr] at hres2
                    exact resolveNm_ne_nil reg [] (kmFunctionName v2) hres2 rfl
                  · rw [hk_eq]
                    show (aGet (aSet st.sec (lineKey l)
                      (.cb (kmFunctionName (lineVal l))
                           (kmFunctionArgs (lineVal l)), []))
                      (lineKey l)).isSome = true
                    rw [aGet_aSet, if_pos rfl]
                    rfl
              · exact hpres s k v2 hmr hres2
            · intro s k hsni hp
              rw [hhn] at hsni
              apply hkeep s k hsni
              rcases hp with ⟨hseq, hnenil, hsome⟩ | ⟨hsne, sec, hgt, hsome⟩
              · left
                refine ⟨hseq, hnenil, ?_⟩
                show (aGet (aSet st.sec (lineKey l)
                  (.cb (kmFunctionName (lineVal l))
                       (kmFunctionArgs (lineVal l)), [])) k).isSome = true
                exact aGet_aSet_isSome _ _ _ _ hsome
              · right
                exact ⟨hsne, sec, hgt, hsome⟩
          · have hresf : resolveK reg st.secName (lineVal l) = false :=
              Bool.not_eq_true _ |>.mp hres
            rw [hresf] at hwf
            obtain ⟨stf, hrun, hpres, hkeep⟩ :=
              ih ⟨st.tree, st.secName, lineKey l, st.sec⟩ false hwf
                (fun hcon => by cases hcon) hnd hns htr
            refine ⟨stf, ?_, ?_, ?_⟩
            · unfold runLines
              simp only [stepKm_key_skipped reg st l hh ht hresf]
              exact hrun
            · intro s k v2 hm hres2
              rw [hkev] at hm
              rcases List.mem_cons.mp hm with heq | hmr
              · exfalso
                have hs_eq : s = st.secName := congrArg Prod.fst heq
                have hv_eq : v2 = lineVal l :=
                  congrArg (fun p => p.2.2) heq
                rw [hs_eq, hv_eq, hresf] at hres2
                cases hres2
              · exact hpres s k v2 hmr hres2
            · intro s k hsni hp
              rw [hhn] at hsni
              exact hkeep s k hsni hp

theorem wfK_headers_legal (reg : Registries) :
    ∀ (lines : List CStr) (sctn : CStr) (curOk : Bool),
      wfK reg sctn curOk lines = true →
      ∀ s, s ∈ headerNames lines → CheckSectionName .keymap s = true := by
  intro lines
  induction lines with
  | nil =>
      intro sctn curOk hwf s hs
      exact absurd hs (List.not_mem_nil _)
  | cons l rest ih =>
      intro sctn curOk hwf s hs
      unfold wfK at hwf
      by_cases hh : l.head? = some '['
      · rw [if_pos hh] at hwf
        obtain ⟨hc, hrest⟩ := Bool.and_eq_true_iff.mp hwf
        rw [headerNames_cons, if_pos hh] at hs
        rcases List.mem_cons.mp hs with heq | hmr
        · rw [heq]; exact hc
        · exact ih (lineSecName l) false hrest s hmr
      · rw [if_neg hh] at hwf
        rw [headerNames_cons, if_neg hh] at hs
        by_cases ht : l.head? = some '\t'
        · rw [if_pos ht] at hwf
          obtain ⟨_, hrest⟩ := Bool.and_eq_true_iff.mp hwf
          exact ih sctn curOk hrest s hs
        · rw [if_neg ht] at hwf
          exact ih sctn (resolveK reg sctn (lineVal l)) hwf s hs

/-- Claim C3 counterexample: with an empty registry and the default
fatality level, a keymap whose skipped entry (unresolvable callback name)
is followed by a tolerant sub-key line makes the parser index the skipped
entry in the current section — a TypeError — so the load throws instead
of succeeding with the entry omitted. -/
theorem C3_counterexample :
    ParseConfig regEmpty 2 .keymap
      (cl "[Press]\nKeyW=Jump\n\ttolerant=true") = .error .typeErr := by
  decide

/-- Claim C3 (amended): at the default fatality level (panics-only), for
keymap inputs whose section headers are legal phase names each appearing
at most once and in which sub-key lines carry only the tolerant flag and
attach only to retained entries, the load succeeds; every entry of the
resulting table has a callback resolved in the registry of its phase (so
entries with unresolvable names are omitted), and every key line whose
callback name resolves is present in the table. -/
theorem C3_amended_skip_and_continue :
    ∀ (reg : Registries) (text : CStr),
      wfK reg [] false (LexText text) = true →
      noDupStrs (headerNames (LexText text)) = true →
      ∃ tree, ParseConfig reg 2 .keymap text = .ok tree ∧
        (∀ s sec k v sub, aGet tree s = some sec →
          aGet sec k = some (v, sub) →
          ∃ nm args, v = .cb nm args ∧ resolveNm reg s nm = true) ∧
        (∀ s k v, (s, k, v) ∈ keyEventsK [] (LexText text) →
          resolveK reg s v = true →
          ∃ sec, aGet tree s = some sec ∧ (aGet sec k).isSome = true) := by
  intro reg text hwf hnd
  have hnil_notin : ¬ ([] : CStr) ∈ headerNames (LexText text) := by
    intro hmem
    have hleg := wfK_headers_legal reg (LexText text) [] false hwf [] hmem
    exact absurd hleg (by decide)
  obtain ⟨st2, hrun, hpres, hkeep⟩ := runLines_keymap_wf reg (LexText text)
    initState false hwf (fun hcon => by cases hcon) hnd hnil_notin
    (fun s hs => rfl)
  have hpc : ParseConfig reg 2 .keymap text = .ok (flushTree st2) := by
    unfold ParseConfig
    simp only [hrun]
    rfl
  refine ⟨flushTree st2, hpc, ?_, ?_⟩
  · intro s sec k v sub hg hk
    have hok := parse_keymap_treeOK reg 2 text (flushTree st2) hpc
    exact ((hok s sec hg) k (v, sub) hk).1
  · intro s k v hm hres
    exact hpres s k v hm hres

/-- Witness for C3 (amended): a concrete keymap whose first entry has an
unknown callback and whose second resolves satisfies the hypotheses, and
the theorem yields the table with the first entry omitted and the second
present. -/
theorem C3_witness :
    wfK ⟨[cl "Known"], [], []⟩ [] false
      (LexText (cl "[Press]\nKeyA=Missing\nKeyB=Known")) = true ∧
    noDupStrs (headerNames
      (LexText (cl "[Press]\nKeyA=Missing\nKeyB=Known"))) = true ∧
    ∃ tree, ParseConfig ⟨[cl "Known"], [], []⟩ 2 .keymap
        (cl "[Press]\nKeyA=Missing\nKeyB=Known") = .ok tree ∧
      (∀ s sec k v sub, aGet tree s = some sec →
        aGet sec k = some (v, sub) →
        ∃ nm args, v = .cb nm args ∧
          resolveNm ⟨[cl "Known"], [], []⟩ s nm = true) ∧
      (∀ s k v, (s, k, v) ∈ keyEventsK []
          (LexText (cl "[Press]\nKeyA=Missing\nKeyB=Known")) →
        resolveK ⟨[cl "Known"], [], []⟩ s v = true →
        ∃ sec, aGet tree s = some sec ∧ (aGet sec k).isSome = true) :=
  ⟨by decide, by decide,
   C3_amended_skip_and_continue ⟨[cl "Known"], [], []⟩
     (cl "[Press]\nKeyA=Missing\nKeyB=Known") (by decide) (by decide)⟩

/-- Witness for C9: two parses of a concrete keymap input produce
structurally equal trees. -/
theorem C9_witness :
    treeEquivB
      [(cl "Press", [(cl "KeyW", (.cb (cl "Jump") none, []))])]
      [(cl "Press", [(cl "KeyW", (.cb (cl "Jump") none, []))])] = true :=
  C9_idempotent_parse ⟨[cl "Jump"], [], []⟩ 2 .keymap
    (cl "[Press]\nKeyW=Jump")
    [(cl "Press", [(cl "KeyW", (.cb (cl "Jump") none, []))])]
    [(cl "Press", [(cl "KeyW", (.cb (cl "Jump") none, []))])]
    (by decide) (by decide)

end Selenium
